import Mathlib

/-!
Verification of the content-coding engine of this repository (`src/utils.py`)
against its specification.  The development shallowly embeds:

* the response-extraction and schema-validation pipeline of
  `auto_code_content` (utils.py lines 647-995) and `auto_code_video`
  (lines 997-1279),
* the retry decorator `retry_with_backoff` (lines 59-95),
* the reliability statistics `calculate_percentage_agreement`
  (lines 1399-1418) and `calculate_krippendorff_alpha` (lines 1420-1490).

Python strings are modelled as Lean `String`, Python `float` arithmetic as
exact `ℚ` arithmetic, Python dicts as insertion-ordered association lists
with overwriting insert, and a raised Python exception as the `.error`
branch of `Except Unit`.  The two remote model calls are abstracted as
oracle functions supplying the raw response strings.
-/

namespace ContentAnalysis

/-! ## Python-style character and string primitives -/

/-- Left brace character, written via its code point. -/
def lbrace : Char := Char.ofNat 123

/-- Right brace character, written via its code point. -/
def rbrace : Char := Char.ofNat 125

/-- Backtick character, written via its code point. -/
def btick : Char := Char.ofNat 96

/-- Whitespace recognised by Python `str.strip` and by the regex class `\s`
(ASCII fragment). -/
def pyWs (c : Char) : Bool :=
  c = ' ' || c = '\t' || c = '\n' || c = '\r' || c = '\x0b' || c = '\x0c'

/-- Python `str.strip()`: drop whitespace from both ends. -/
def pyStrip (s : String) : String :=
  String.mk (((s.data.dropWhile pyWs).reverse.dropWhile pyWs).reverse)

/-- Check that the first list is a prefix of the second. -/
def prefixOfList (needle hay : List Char) : Bool :=
  match needle, hay with
  | [], _ => true
  | _ :: _, [] => false
  | a :: as, b :: bs => a = b && prefixOfList as bs

/-- Python substring containment `needle in hay` for strings, on char lists. -/
def substrOfList (needle : List Char) : List Char → Bool
  | [] => prefixOfList needle []
  | c :: hs => prefixOfList needle (c :: hs) || substrOfList needle hs

/-- Python substring containment `needle in hay` for strings. -/
def pySubstr (needle hay : String) : Bool :=
  substrOfList needle.data hay.data

/-- Python `str.lower()` (ASCII case folding, which covers the option
strings this code handles; CJK characters are unaffected in both). -/
def pyLower (s : String) : String :=
  String.mk (s.data.map Char.toLower)

/-- Split a char list on a separator character, Python `str.split(sep)`
semantics: the empty string yields one empty field. -/
def splitListOn (sep : Char) : List Char → List (List Char)
  | [] => [[]]
  | c :: cs =>
    let r := splitListOn sep cs
    if c = sep then [] :: r
    else
      match r with
      | [] => [[c]]
      | h :: t => (c :: h) :: t

/-- Python `s.split(sep)` for a one-character separator. -/
def pySplitChar (s : String) (sep : Char) : List String :=
  (splitListOn sep s.data).map String.mk

/-- Size of `set(a) ∩ set(b)` for two char lists (Python set intersection of
the characters). -/
def charSetInterCard (a b : List Char) : Nat :=
  ((a.filter (fun c => b.contains c)).dedup).length

/-- Python `s.replace(pat, rep)` (all occurrences, left to right), with fuel;
`pat` is never empty at the call sites. -/
def replaceFrom (pat rep : List Char) : Nat → List Char → List Char
  | 0, cs => cs
  | _ + 1, [] => []
  | fuel + 1, c :: cs =>
    if pat ≠ [] && prefixOfList pat (c :: cs) then
      rep ++ replaceFrom pat rep fuel ((c :: cs).drop pat.length)
    else
      c :: replaceFrom pat rep fuel cs

/-- Python `s.replace(pat, rep)`. -/
def pyReplace (s pat rep : String) : String :=
  String.mk (replaceFrom pat.data rep.data s.data.length s.data)

/-- Insertion-ordered dictionary insert with overwrite, the semantics of
`d[k] = v` on a Python dict modelled as an association list: an existing
binding is updated in place, a new key is appended. -/
def dictInsert {α : Type} : List (String × α) → String → α → List (String × α)
  | [], k, v => [(k, v)]
  | p :: rest, k, v => if p.1 = k then (k, v) :: rest else p :: dictInsert rest k v

/-- First-match lookup in an association list (the maps built with
`dictInsert` have unique keys, so this is Python `d.get(k)`). -/
def dictLookup {α : Type} : List (String × α) → String → Option α
  | [], _ => none
  | p :: rest, k => if p.1 = k then some p.2 else dictLookup rest k

/-! ## JSON values and a model of `json.loads` -/

/-- Parsed JSON values as delivered by Python `json.loads`.  Numbers keep
their literal text: the pipeline never computes with them, it only compares
them (unequal to every string) and calls string methods on them (raising). -/
inductive JValue where
  | jnull : JValue
  | jbool (b : Bool) : JValue
  | jnum (lit : String) : JValue
  | jstr (s : String) : JValue
  | jarr (elems : List JValue) : JValue
  | jobj (fields : List (String × JValue)) : JValue

/-- Whitespace accepted between JSON tokens by `json.loads`. -/
def jsonWsChar (c : Char) : Bool :=
  c = ' ' || c = '\t' || c = '\n' || c = '\r'

/-- Skip inter-token JSON whitespace. -/
def jSkip (cs : List Char) : List Char := cs.dropWhile jsonWsChar

/-- Value of a hexadecimal digit. -/
def hexVal (c : Char) : Option Nat :=
  if '0' ≤ c ∧ c ≤ '9' then some (c.toNat - '0'.toNat)
  else if 'a' ≤ c ∧ c ≤ 'f' then some (c.toNat - 'a'.toNat + 10)
  else if 'A' ≤ c ∧ c ≤ 'F' then some (c.toNat - 'A'.toNat + 10)
  else none

/-- Body of a JSON string literal after the opening quote; returns the
decoded string and the remainder after the closing quote. -/
def jStrBody : Nat → List Char → List Char → Option (String × List Char)
  | 0, _, _ => none
  | _ + 1, [], _ => none
  | fuel + 1, c :: cs, acc =>
    if c = '"' then some (String.mk acc.reverse, cs)
    else if c = '\\' then
      match cs with
      | [] => none
      | e :: cs2 =>
        if e = '"' then jStrBody fuel cs2 ('"' :: acc)
        else if e = '\\' then jStrBody fuel cs2 ('\\' :: acc)
        else if e = '/' then jStrBody fuel cs2 ('/' :: acc)
        else if e = 'n' then jStrBody fuel cs2 ('\n' :: acc)
        else if e = 't' then jStrBody fuel cs2 ('\t' :: acc)
        else if e = 'r' then jStrBody fuel cs2 ('\r' :: acc)
        else if e = 'b' then jStrBody fuel cs2 ('\x08' :: acc)
        else if e = 'f' then jStrBody fuel cs2 ('\x0c' :: acc)
        else if e = 'u' then
          match cs2 with
          | h1 :: h2 :: h3 :: h4 :: cs3 =>
            match hexVal h1, hexVal h2, hexVal h3, hexVal h4 with
            | some a, some b, some c2, some d =>
              jStrBody fuel cs3 (Char.ofNat (((a * 16 + b) * 16 + c2) * 16 + d) :: acc)
            | _, _, _, _ => none
          | _ => none
        else none
    else if c.toNat < 32 then none
    else jStrBody fuel cs (c :: acc)

/-- Parse a JSON number literal (kept as its source text). -/
def jNumLit (cs : List Char) : Option (String × List Char) :=
  let (sign, cs1) :=
    match cs with
    | c :: rest => if c = '-' then (['-'], rest) else (([] : List Char), cs)
    | [] => ([], [])
  match cs1 with
  | [] => none
  | c :: _ =>
    if ¬ c.isDigit then none
    else
      let intPart := cs1.takeWhile Char.isDigit
      let cs2 := cs1.dropWhile Char.isDigit
      let (frac, cs3) :=
        match cs2 with
        | '.' :: d :: rest =>
          if d.isDigit then
            ('.' :: (d :: rest).takeWhile Char.isDigit, (d :: rest).dropWhile Char.isDigit)
          else (([] : List Char), cs2)
        | _ => ([], cs2)
      if cs3 ≠ cs2 ∧ frac = [] then none
      else
        let (ex, cs4) :=
          match cs3 with
          | e :: rest =>
            if e = 'e' ∨ e = 'E' then
              match rest with
              | s :: d :: r2 =>
                if (s = '+' ∨ s = '-') ∧ d.isDigit then
                  (e :: s :: (d :: r2).takeWhile Char.isDigit, (d :: r2).dropWhile Char.isDigit)
                else if s.isDigit then
                  (e :: (s :: d :: r2).takeWhile Char.isDigit, (s :: d :: r2).dropWhile Char.isDigit)
                else ([], cs3)
              | [s] => if s.isDigit then ([e, s], ([] : List Char)) else ([], cs3)
              | [] => ([], cs3)
            else ([], cs3)
          | [] => ([], cs3)
        some (String.mk (sign ++ intPart ++ frac ++ ex), cs4)

/-- Parsing state: a value to parse, or the member/item loop of a partially
parsed object/array (kept in one inductive so the parser is a single
fuel-indexed recursion that the kernel evaluates). -/
inductive PJob where
  | pval (cs : List Char) : PJob
  | pmembers (cs : List Char) (acc : List (String × JValue)) : PJob
  | pitems (cs : List Char) (acc : List JValue) : PJob

/-- The recursive JSON reader: parse one value (leading whitespace
allowed), or continue an object positioned at a key, or continue an array
positioned at an item. -/
def jRun : Nat → PJob → Option (JValue × List Char)
  | 0, _ => none
  | fuel + 1, .pval cs =>
    match jSkip cs with
    | [] => none
    | c :: rest =>
      if c = '"' then
        match jStrBody (fuel + 1) rest [] with
        | some (s, r) => some (.jstr s, r)
        | none => none
      else if c = lbrace then
        match jSkip rest with
        | d :: _ => if d = rbrace then some (.jobj [], (jSkip rest).drop 1) else jRun fuel (.pmembers (jSkip rest) [])
        | [] => none
      else if c = '[' then
        match jSkip rest with
        | d :: _ => if d = ']' then some (.jarr [], (jSkip rest).drop 1) else jRun fuel (.pitems (jSkip rest) [])
        | [] => none
      else if prefixOfList ['t', 'r', 'u', 'e'] (c :: rest) then
        some (.jbool true, (c :: rest).drop 4)
      else if prefixOfList ['f', 'a', 'l', 's', 'e'] (c :: rest) then
        some (.jbool false, (c :: rest).drop 5)
      else if prefixOfList ['n', 'u', 'l', 'l'] (c :: rest) then
        some (.jnull, (c :: rest).drop 4)
      else
        match jNumLit (c :: rest) with
        | some (lit, r) => some (.jnum lit, r)
        | none => none
  | fuel + 1, .pmembers cs acc =>
    match cs with
    | [] => none
    | c :: rest =>
      if c = '"' then
        match jStrBody (fuel + 1) rest [] with
        | some (k, r1) =>
          match jSkip r1 with
          | ':' :: r2 =>
            match jRun fuel (.pval r2) with
            | some (v, r3) =>
              match jSkip r3 with
              | ',' :: r4 => jRun fuel (.pmembers (jSkip r4) (acc ++ [(k, v)]))
              | d :: r4 => if d = rbrace then some (.jobj (acc ++ [(k, v)]), r4) else none
              | [] => none
            | none => none
          | _ => none
        | none => none
      else none
  | fuel + 1, .pitems cs acc =>
    match jRun fuel (.pval cs) with
    | some (v, r1) =>
      match jSkip r1 with
      | ',' :: r2 => jRun fuel (.pitems (jSkip r2) (acc ++ [v]))
      | d :: r2 => if d = ']' then some (.jarr (acc ++ [v]), r2) else none
      | [] => none
    | none => none

/-- Model of `json.loads`: parse the entire string as one JSON value,
allowing only whitespace around it; `none` models `JSONDecodeError`. -/
def jsonParse (s : String) : Option JValue :=
  match jRun (2 * s.length + 4) (.pval s.data) with
  | some (v, rest) => if jSkip rest = [] then some v else none
  | none => none

/-! ## Python operators on parsed JSON values -/

/-- Python membership `key in v` on a `json.loads` result: key lookup on a
dict, substring search on a string, element equality on a list, and a
`TypeError` (modelled as `.error`) on numbers, booleans and `None`. -/
def pyContains (v : JValue) (key : String) : Except Unit Bool :=
  match v with
  | .jobj fields => .ok (fields.any (fun p => p.1 = key))
  | .jstr s => .ok (pySubstr key s)
  | .jarr elems =>
    .ok (elems.any (fun e => match e with | .jstr t => t = key | _ => false))
  | _ => .error ()

/-- Lookup of the last binding of a key, Python-dict style (with duplicate
keys in a JSON text, `json.loads` keeps the last value). -/
def objGetLast (fields : List (String × JValue)) (key : String) : Option JValue :=
  match fields with
  | [] => none
  | (k, v) :: rest =>
    match objGetLast rest key with
    | some w => some w
    | none => if k = key then some v else none

/-- Python indexing `v[key]` with a string key: dict lookup, or a
`TypeError`/`KeyError` (modelled as `.error`) on anything else. -/
def pyGet (v : JValue) (key : String) : Except Unit JValue :=
  match v with
  | .jobj fields =>
    match objGetLast fields key with
    | some w => .ok w
    | none => .error ()
  | _ => .error ()

/-! ## Variable schema and the options map

The source reads variables as free-form dicts via `var.get(...)`; the model
keeps the fields the engine reads.  An absent `likert_scale` defaults to 5
and absent `likert_labels`/`guide` behave as the empty string, matching the
`.get` defaults and the truthiness tests in the source. -/

/-- One entry of a list-valued `options` field: either a plain string or a
dict with optional `value` and `label` keys (lines 690-708 of utils.py). -/
inductive OptEntry where
  | oplain (s : String) : OptEntry
  | odict (label : Option String) (value : Option String) : OptEntry

/-- Shape of the `options` field of a variable dict. -/
inductive OptionsField where
  | ostr (s : String) : OptionsField
  | olist (entries : List OptEntry) : OptionsField

/-- A coding-scheme variable, holding the fields `auto_code_content` and
`auto_code_video` read. -/
structure Variable where
  name : String
  type : String
  options : Option OptionsField := none
  likert_scale : Nat := 5
  likert_labels : String := ""
  guide : String := ""

/-- Test for the two categorical type tags (`分类变量` or `select`). -/
def isCatType (t : String) : Bool :=
  t = "分类变量" || t = "select"

/-- Parse a comma-separated string options field: split on commas, strip
each piece, drop empties (line 684 of utils.py). -/
def splitOpts (s : String) : List String :=
  ((pySplitChar s ',').map pyStrip).filter (fun o => o ≠ "")

/-- Whether an options-list entry is a dict (Python `isinstance(opt, dict)`). -/
def isDictEntry : OptEntry → Bool
  | .odict _ _ => true
  | .oplain _ => false

/-- The `label` of a dict entry when present. -/
def entryLabel : OptEntry → Option String
  | .odict l _ => l
  | .oplain _ => none

/-- The `value` of a dict entry when present. -/
def entryValue : OptEntry → Option String
  | .odict _ v => v
  | .oplain _ => none

/-- The plain string carried by a non-dict entry. -/
def entryPlain : OptEntry → Option String
  | .oplain s => some s
  | .odict _ _ => none

/-- One iteration of the variable loop of `auto_code_content` (lines
670-727) and `auto_code_video` (lines 1088-1145): extends the prompt text
and the valid-options map.  `none` models the `TypeError` raised by
`", ".join` when a list-valued options field mixes dicts with non-dicts. -/
def varContextStep (acc : String × List (String × List String))
    (var : Variable) : Option (String × List (String × List String)) :=
  let text := acc.1 ++ var.name ++ " (" ++ var.type ++ ")"
  let om := acc.2
  let afterOpts : Option (String × List (String × List String)) :=
    if isCatType var.type then
      match var.options with
      | some (.ostr s) =>
        let opts := splitOpts s
        let text2 :=
          if opts.isEmpty then text
          else text ++ " [选项: " ++ String.intercalate ", " opts ++ "]"
        some (text2, dictInsert om var.name opts)
      | some (.olist entries) =>
        if entries.all isDictEntry then
          let labels := entries.filterMap entryLabel
          let vals := entries.filterMap entryValue
          if labels.isEmpty then some (text, om)
          else
            let text2 := text ++ " [选项: " ++ String.intercalate ", " labels ++ "]"
            let om2 :=
              dictInsert
                (dictInsert (dictInsert om var.name labels)
                  (var.name ++ "_values") vals)
                (var.name ++ "_labels") labels
            some (text2, om2)
        else if entries.any isDictEntry then none
        else
          let plains := entries.filterMap entryPlain
          some (text ++ " [选项: " ++ String.intercalate ", " plains ++ "]",
            dictInsert om var.name plains)
      | none => some (text, om)
    else if var.type = "李克特量表" then
      let text2 :=
        if var.likert_labels = "" then
          text ++ " [量表: 1-" ++ toString var.likert_scale ++ "]"
        else
          let labels := splitOpts var.likert_labels
          if labels.isEmpty then
            text ++ " [量表: 1-" ++ toString var.likert_scale ++ "]"
          else text ++ " [量表: " ++ String.intercalate ", " labels ++ "]"
      some (text2, om)
    else some (text, om)
  afterOpts.map (fun tm =>
    let withGuide := if var.guide = "" then tm.1 else tm.1 ++ "\n编码指南: " ++ var.guide
    (withGuide ++ "\n\n", tm.2))

/-- The full variable loop: prompt text plus the per-variable valid-options
map; `none` when the loop raises. -/
def buildVarsContext (vars : List Variable) :
    Option (String × List (String × List String)) :=
  vars.foldlM varContextStep ("", [])

/-! ## Categorical fuzzy repair (lines 810-827 of utils.py) -/

/-- Eligibility of an option: case-insensitive substring containment in
either direction (`option.lower() in value.lower() or value.lower() in
option.lower()`). -/
def eligibleOpt (value option : String) : Bool :=
  pySubstr (pyLower option) (pyLower value) ||
    pySubstr (pyLower value) (pyLower option)

/-- Similarity score: size of the character-set intersection of the
lowercased strings, divided by the larger original length. -/
def simScore (value option : String) : ℚ :=
  (charSetInterCard (pyLower option).data (pyLower value).data : ℚ) /
    (max option.length value.length : ℚ)

/-- One iteration of the fuzzy-match loop over the options, updating the
running `(best_match, best_score)` pair; `.error` models the
`ZeroDivisionError` when both strings are empty. -/
def fuzzyStep (value : String) (st : Option String × ℚ) (option : String) :
    Except Unit (Option String × ℚ) :=
  if eligibleOpt value option then
    if max option.length value.length = 0 then .error ()
    else
      let score := simScore value option
      if st.2 < score then .ok (some option, score) else .ok st
  else .ok st

/-- The fuzzy-match loop over all options. -/
def fuzzyFold (value : String) (opts : List String) :
    Except Unit (Option String × ℚ) :=
  opts.foldlM (fuzzyStep value) (none, 0)

/-- The decision after the loop: accept `best_match` when it is truthy and
`best_score > 0.5`, else fall back to the first option (or `""` when the
option list is empty). -/
def fuzzyDecide (opts : List String) (st : Option String × ℚ) : String :=
  match st.1 with
  | some m => if m ≠ "" ∧ (1 / 2 : ℚ) < st.2 then m else opts.headD ""
  | none => opts.headD ""

/-- The categorical fuzzy repair applied to a candidate value that did not
match any option exactly. -/
def fuzzyRepair (value : String) (opts : List String) : Except Unit String :=
  (fuzzyFold value opts).map (fuzzyDecide opts)

/-! ## Schema validation -/

/-- Handling of one categorical value in the post-loop validator variant
(stages 1 and 3 of `auto_code_content`, stage 4, and `auto_code_video`):
exact match kept, otherwise fuzzy repair; a non-string value raises
`AttributeError` at `value.lower()` unless the option list is empty, in
which case the loop body never runs and the `""` default applies. -/
def catValue (value : JValue) (opts : List String) : Except Unit JValue :=
  match value with
  | .jstr s =>
    if opts.contains s then .ok (.jstr s)
    else (fuzzyRepair s opts).map JValue.jstr
  | _ => if opts.isEmpty then .ok (.jstr "") else .error ()

/-- Handling of one categorical value in the in-loop validator variant
(stage 2 of `auto_code_content`, lines 860-878, where the threshold test is
indented inside the option loop): identical outcome for a non-empty option
list (the final loop iteration decides with the completed best pair), but
an empty option list produces no assignment at all. -/
def catValueB (value : JValue) (opts : List String) :
    Except Unit (Option JValue) :=
  match value with
  | .jstr s =>
    if opts.contains s then .ok (some (.jstr s))
    else if opts.isEmpty then .ok none
    else (fuzzyRepair s opts).map (fun r => some (.jstr r))
  | _ => if opts.isEmpty then .ok none else .error ()

/-- The validation loop over the variable list (post-loop variant),
accumulating `valid_coding`. -/
def validateAGo (om : List (String × List String)) (coding : JValue) :
    List Variable → List (String × JValue) →
    Except Unit (List (String × JValue))
  | [], acc => .ok acc
  | var :: rest, acc =>
    match pyContains coding var.name with
    | .error _ => .error ()
    | .ok false => validateAGo om coding rest acc
    | .ok true =>
      match pyGet coding var.name with
      | .error _ => .error ()
      | .ok value =>
        if isCatType var.type && (dictLookup om var.name).isSome then
          match catValue value ((dictLookup om var.name).getD []) with
          | .error _ => .error ()
          | .ok v2 => validateAGo om coding rest (dictInsert acc var.name v2)
        else validateAGo om coding rest (dictInsert acc var.name value)

/-- Post-loop validator applied to a candidate mapping (stages 1, 3, 4 of
`auto_code_content`, and `auto_code_video`). -/
def validateA (vars : List Variable) (om : List (String × List String))
    (coding : JValue) : Except Unit (List (String × JValue)) :=
  validateAGo om coding vars []

/-- The validation loop over the variable list (stage-2 in-loop variant). -/
def validateBGo (om : List (String × List String)) (coding : JValue) :
    List Variable → List (String × JValue) →
    Except Unit (List (String × JValue))
  | [], acc => .ok acc
  | var :: rest, acc =>
    match pyContains coding var.name with
    | .error _ => .error ()
    | .ok false => validateBGo om coding rest acc
    | .ok true =>
      match pyGet coding var.name with
      | .error _ => .error ()
      | .ok value =>
        if isCatType var.type && (dictLookup om var.name).isSome then
          match catValueB value ((dictLookup om var.name).getD []) with
          | .error _ => .error ()
          | .ok none => validateBGo om coding rest acc
          | .ok (some v2) => validateBGo om coding rest (dictInsert acc var.name v2)
        else validateBGo om coding rest (dictInsert acc var.name value)

/-- Stage-2 validator applied to a candidate mapping. -/
def validateB (vars : List Variable) (om : List (String × List String))
    (coding : JValue) : Except Unit (List (String × JValue)) :=
  validateBGo om coding vars []

/-! ## Extraction fallback stages 2-4 -/

/-- Tail condition of the fenced-block regex after the captured closing
brace: optional whitespace then three backticks.  The lazy capture and the
greedy `\s*` make the regex deterministic here (any shorter whitespace run
would put a whitespace character where a backtick is required). -/
def fencedTail (cs : List Char) : Bool :=
  match cs.dropWhile pyWs with
  | a :: b :: c :: _ => a = btick && b = btick && c = btick
  | _ => false

/-- Scan for the lazy closing brace of the capture group
`({[\s\S]*?})`: the first closing brace followed by `\s*` and three
backticks ends the capture. -/
def fencedClose (acc : List Char) : List Char → Option (List Char)
  | [] => none
  | c :: rest =>
    if c = rbrace && fencedTail rest then some (acc.reverse ++ [c])
    else fencedClose (c :: acc) rest

/-- Attempt to match the regex of line 837,
three backticks, an optional `json` tag, whitespace, then the capture
group, at the current position. -/
def fencedFrom (cs : List Char) : Option String :=
  match cs with
  | a :: b :: c :: rest =>
    if a = btick && b = btick && c = btick then
      let rest2 := if rest.take 4 = ['j', 's', 'o', 'n'] then rest.drop 4 else rest
      match rest2.dropWhile pyWs with
      | d :: body =>
        if d = lbrace then
          (fencedClose [] body).map (fun content => String.mk (lbrace :: content))
        else none
      | [] => none
    else none
  | _ => none

/-- Leftmost-match search for the fenced-block pattern. -/
def fencedSearchList : List Char → Option String
  | [] => none
  | c :: rest =>
    match fencedFrom (c :: rest) with
    | some r => some r
    | none => fencedSearchList rest

/-- Model of `re.search` with the fenced-code-block pattern of line 837,
returning the captured JSON-object text. -/
def fencedSearch (s : String) : Option String :=
  fencedSearchList s.data

/-- Index of the last occurrence of a character (`str.rfind`). -/
def lastIdxOf (c : Char) (cs : List Char) : Option Nat :=
  match List.findIdx? (fun x => x = c) cs.reverse with
  | some k => some (cs.length - 1 - k)
  | none => none

/-- Stage 3 of the extractor (lines 885-889): the substring from the first
opening brace to the last closing brace, inclusive, when the latter comes
strictly after the former. -/
def braceSub (s : String) : Option String :=
  let cs := s.data
  match List.findIdx? (fun x => x = lbrace) cs, lastIdxOf rbrace cs with
  | some i, some j =>
    if i < j then some (String.mk ((cs.drop i).take (j - i + 1))) else none
  | _, _ => none

/-- Split a line at its first `=` into stripped key and value
(`line.split('=', 1)` followed by `.strip()` on both parts). -/
def splitFirstEq (line : String) : String × String :=
  let cs := line.data
  (pyStrip (String.mk (cs.takeWhile (fun c => c ≠ '='))),
    pyStrip (String.mk ((cs.dropWhile (fun c => c ≠ '=')).drop 1)))

/-- Stage 4 of the extractor (lines 936-939 and the handler at 987-990):
strip the reply, split into lines, and for every line containing `=` store
the stripped key/value pair, later lines overwriting earlier ones. -/
def lineParse (s : String) : List (String × String) :=
  (pySplitChar (pyStrip s) '\n').foldl
    (fun acc line =>
      if line.data.contains '=' then
        dictInsert acc (splitFirstEq line).1 (splitFirstEq line).2
      else acc) []

/-- The line-parsed reply embedded as a JSON object of strings (Python dict
membership and indexing on `coding_results` coincide with the object
semantics). -/
def lineParseObj (s : String) : JValue :=
  .jobj ((lineParse s).map (fun p => (p.1, JValue.jstr p.2)))

/-- The line-parsed reply as the raw result value returned by the escape
path (`return coding_results` at line 992, reached when a fallback stage
raises after stage 1): its values bypass validation. -/
def rawLineResult (s : String) : List (String × JValue) :=
  (lineParse s).map (fun p => (p.1, JValue.jstr p.2))

/-! ## The extraction-and-validation pipeline of `auto_code_content` -/

/-- Lines 782-995 of `auto_code_content`, applied to the raw model reply:
stage 1 parses the whole reply and validates post-loop (an exception there
reaches the outer handler, returning `none`); on `JSONDecodeError`, stage 2
parses a fenced block and validates in-loop, stage 3 parses the first-to-
last-brace substring, stage 4 line-parses and validates; any exception
inside stages 2-4 is caught at line 984, which line-parses the reply and
falls through to `return coding_results` without validation. -/
def codingParse (vars : List Variable) (om : List (String × List String))
    (resp : String) : Option (List (String × JValue)) :=
  match jsonParse resp with
  | some j => (validateA vars om j).toOption
  | none =>
    match fencedSearch resp with
    | some block =>
      match jsonParse block with
      | some j =>
        match validateB vars om j with
        | .ok r => some r
        | .error _ => some (rawLineResult resp)
      | none => some (rawLineResult resp)
    | none =>
      match braceSub resp with
      | some sub =>
        match jsonParse sub with
        | some j =>
          match validateA vars om j with
          | .ok r => some r
          | .error _ => some (rawLineResult resp)
        | none => some (rawLineResult resp)
      | none =>
        match validateA vars om (lineParseObj resp) with
        | .ok r => some r
        | .error _ => some (rawLineResult resp)

/-- The post-response portion of `auto_code_content` as a function of the
variable list and the raw model reply; `none` models the `None` returned on
failure (the `ExtractionFailed` outcome of the spec). -/
def auto_code_content_parse (vars : List Variable) (resp : String) :
    Option (List (String × JValue)) :=
  match buildVarsContext vars with
  | none => none
  | some ctx => codingParse vars ctx.2 resp

/-! ## The `auto_code_video` operation -/

/-- Two-digit zero-padded decimal. -/
def pad2 (n : Nat) : String :=
  if n < 10 then "0" ++ toString n else toString n

/-- Python `str(timedelta(seconds=ts))` for timestamps below one day. -/
def tdStr (ts : Nat) : String :=
  toString (ts / 3600) ++ ":" ++ pad2 (ts % 3600 / 60) ++ ":" ++ pad2 (ts % 60)

/-- The per-frame description entry of line 1073, prefixed with the
timestamp label. -/
def frameLabel (ts : Nat) (desc : String) : String :=
  "时间点: " ++ tdStr ts ++ " (第" ++ toString ts ++ "秒)\n描述: " ++ desc

/-- The frame loop of lines 1039-1076: at most the first four frames are
sent to the vision model; a frame whose call fails or whose response has no
usable content (`visionResp` returns `none`) is skipped, the rest append
their labelled description in order. -/
def frameDescriptions {F : Type} (frames : List (F × Nat))
    (visionResp : F → Option String) : List String :=
  (frames.take 4).foldl
    (fun acc fr =>
      match visionResp fr.1 with
      | some d => acc ++ [frameLabel fr.2 d]
      | none => acc) []

/-- The default video coding prompt of lines 1151-1170. -/
def videoDefaultTemplate (combined vtext : String) : String :=
  "请根据以下视频描述，为指定的变量进行编码。\n\n视频描述:\n" ++ combined ++
  "\n\n需要编码的变量:\n" ++ vtext ++
  "\n\n请以JSON格式返回编码结果，格式为：\n\x7b\n    \"变量名1\": \"编码值1\",\n    \"变量名2\": \"编码值2\",\n    ...\n\x7d\n\n重要说明：\n1. 对于分类变量，你必须且只能从提供的选项中选择一个，不要创建新的选项。\n2. 对于李克特量表，请返回1到5之间的数值。\n3. 请确保编码结果符合变量的要求和视频内容。\n"

/-- The user prompt sent to the text model by `auto_code_video` (lines
1148-1170). -/
def videoPrompt (customPrompt : Option String) (combined vtext : String) :
    String :=
  match customPrompt with
  | some p => pyReplace (pyReplace p "\x7bcontent\x7d" combined) "\x7bvariables\x7d" vtext
  | none => videoDefaultTemplate combined vtext

/-- The response handling of `auto_code_video` (lines 1200-1268): direct
parse, else fenced block, else brace substring — any parse failure returns
`none` (there is no line-oriented stage here) — then one post-loop
validation pass whose exception also yields `none`. -/
def videoRespParse (vars : List Variable) (om : List (String × List String))
    (resp : String) : Option (List (String × JValue)) :=
  match jsonParse resp with
  | some j => (validateA vars om j).toOption
  | none =>
    match fencedSearch resp with
    | some b =>
      match jsonParse b with
      | some j => (validateA vars om j).toOption
      | none => none
    | none =>
      match braceSub resp with
      | some sub =>
        match jsonParse sub with
        | some j => (validateA vars om j).toOption
        | none => none
      | none => none

/-- The `auto_code_video` operation on pre-extracted frames, with the two
remote calls abstracted: `visionResp` yields the description text obtained
for a frame (or `none` on failure), `textResp` yields the text-model reply
for the final prompt (or `none` when that call fails).  `none` overall
models the `None` returned on failure. -/
def auto_code_video {F : Type} (frames : List (F × Nat))
    (vars : List Variable) (customPrompt : Option String)
    (visionResp : F → Option String) (textResp : String → Option String) :
    Option (List (String × JValue)) :=
  if frames.isEmpty then none
  else
    match buildVarsContext vars with
    | none => none
    | some ctx =>
      let combined := String.intercalate "\n\n" (frameDescriptions frames visionResp)
      match textResp (videoPrompt customPrompt combined ctx.1) with
      | none => none
      | some resp => videoRespParse vars ctx.2 resp

/-! ## The retry decorator (lines 59-95) -/

/-- The retry loop: `f n` is the outcome of the `n`-th invocation (0-based).
Returns the final outcome (`none` only in the vacuous `max_retries = 0`
case, where the loop body never runs and `raise last_exception` raises
`None`), the number of invocations, and the list of sleep durations in
order. -/
def retryGo {E A : Type} (f : Nat → Except E A) (initB factor : ℚ) :
    Nat → Nat → Option E → Option (Except E A) × Nat × List ℚ
  | 0, _, last => (last.map Except.error, 0, [])
  | n + 1, idx, _ =>
    match f idx with
    | .ok a => (some (.ok a), 1, [])
    | .error e =>
      let rest := retryGo f initB factor n (idx + 1) (some e)
      (rest.1, rest.2.1 + 1,
        if n = 0 then rest.2.2 else initB * factor ^ idx :: rest.2.2)

/-- Model of `retry_with_backoff(max_retries, initial_backoff,
backoff_factor)` wrapping an operation: the sleep after failed attempt
`k` (1-based, except the last) lasts `initial_backoff * backoff_factor ^
(k - 1)` seconds. -/
def retry_with_backoff {E A : Type} (maxRetries : Nat) (initB factor : ℚ)
    (f : Nat → Except E A) : Option (Except E A) × Nat × List ℚ :=
  retryGo f initB factor maxRetries 0 none

/-! ## Reliability statistics -/

/-- Ordered pairs `(xs[i], xs[j])` with `i < j`, the double loop of the two
calculators. -/
def allPairs {α : Type} : List α → List (α × α)
  | [] => []
  | x :: xs => xs.map (fun y => (x, y)) ++ allPairs xs

/-- One step of the inner comparison loop: a variable of the first
observation contributes a comparison when present in the second, and an
agreement when the values are equal (lines 1409-1413). -/
def pairStep {V : Type} [DecidableEq V] (oj : List (String × V))
    (st : Nat × Nat) (p : String × V) : Nat × Nat :=
  match dictLookup oj p.1 with
  | some w => (st.1 + 1, if p.2 = w then st.2 + 1 else st.2)
  | none => st

/-- Comparisons and agreements contributed by one pair of observations. -/
def pairStats {V : Type} [DecidableEq V] (oi oj : List (String × V)) :
    Nat × Nat :=
  oi.foldl (pairStep oj) (0, 0)

/-- Total comparisons across all observation pairs. -/
def totalComparisons {V : Type} [DecidableEq V]
    (obs : List (List (String × V))) : Nat :=
  ((allPairs obs).map (fun pq => (pairStats pq.1 pq.2).1)).sum

/-- Total agreements across all observation pairs. -/
def totalAgreements {V : Type} [DecidableEq V]
    (obs : List (List (String × V))) : Nat :=
  ((allPairs obs).map (fun pq => (pairStats pq.1 pq.2).2)).sum

/-- Model of `calculate_percentage_agreement` (lines 1399-1418). -/
def calculate_percentage_agreement {V : Type} [DecidableEq V]
    (obs : List (List (String × V))) : ℚ :=
  if obs.length < 2 then 0
  else if totalComparisons obs = 0 then 0
  else (totalAgreements obs : ℚ) / (totalComparisons obs : ℚ)

/-- Values recorded for one variable across the observations carrying it
(line 1435). -/
def valsFor {V : Type} (obs : List (List (String × V))) (var : String) :
    List V :=
  obs.filterMap (fun o => dictLookup o var)

/-- Total unordered value pairs across all variables of the categories
mapping (lines 1434-1443). -/
def krippTotalPairs {V : Type} (cats : List (String × List V))
    (obs : List (List (String × V))) : Nat :=
  (cats.map (fun c => (allPairs (valsFor obs c.1)).length)).sum

/-- Disagreeing unordered value pairs across all variables. -/
def krippDisagreePairs {V : Type} [DecidableEq V]
    (cats : List (String × List V)) (obs : List (List (String × V))) : Nat :=
  (cats.map (fun c =>
    ((allPairs (valsFor obs c.1)).filter (fun p => p.1 ≠ p.2)).length)).sum

/-- Per-variable expected disagreement from the marginal distribution:
`P(v1) * P(v2)` summed over ordered pairs of distinct observed values
(lines 1474-1479). -/
def varExpected {V : Type} [DecidableEq V] (vals : List V) : ℚ :=
  let n : ℚ := (vals.length : ℚ)
  ((vals.dedup).map (fun v1 =>
    ((vals.dedup).map (fun v2 =>
      if v1 ≠ v2 then ((vals.count v1 : ℚ) / n) * ((vals.count v2 : ℚ) / n)
      else 0)).sum)).sum

/-- Overall expected disagreement (lines 1450-1483): variables with an
empty declared category list or fewer than two observed values contribute
nothing, and the sum is divided by the number of variables. -/
def krippExpected {V : Type} [DecidableEq V] (cats : List (String × List V))
    (obs : List (List (String × V))) : ℚ :=
  ((cats.map (fun c =>
    if c.2 = [] then 0
    else if (valsFor obs c.1).length < 2 then 0
    else varExpected (valsFor obs c.1))).sum) / (cats.length : ℚ)

/-- Model of `calculate_krippendorff_alpha` (lines 1420-1490). -/
def calculate_krippendorff_alpha {V : Type} [DecidableEq V]
    (obs : List (List (String × V))) (cats : List (String × List V)) : ℚ :=
  if obs.length < 2 then 0
  else if krippTotalPairs cats obs = 0 then 0
  else
    let od : ℚ := (krippDisagreePairs cats obs : ℚ) / (krippTotalPairs cats obs : ℚ)
    let ed : ℚ := krippExpected cats obs
    if ed = 0 then 1 else 1 - od / ed

/-! ## Spec-side reference definitions

The following definitions render the specification's wording (not the
source); they exist only to be compared with the definitions above. -/

/-- Specification wording of the fuzzy-match candidate pool: every eligible
option together with its similarity score. -/
def fuzzyEligibleScored (value : String) (opts : List String) :
    List (String × ℚ) :=
  opts.filterMap (fun o =>
    if eligibleOpt value o then some (o, simScore value o) else none)

/-- Specification wording of the winner: the element with the highest score,
the first maximum winning ties. -/
def firstArgmax : List (String × ℚ) → Option (String × ℚ)
  | [] => none
  | p :: rest =>
    match firstArgmax rest with
    | none => some p
    | some q => if q.2 ≤ p.2 then some p else some q

/-- Specification wording of the categorical fuzzy repair (spec §4.4 and
claim C8): among eligible options the highest-scoring one (first maximum on
ties) is accepted when its score strictly exceeds 0.5, otherwise the first
declared option is used. -/
def fuzzyRepairSpec (value : String) (opts : List String) : String :=
  match firstArgmax (fuzzyEligibleScored value opts) with
  | some p => if (1 / 2 : ℚ) < p.2 then p.1 else opts.headD ""
  | none => opts.headD ""

/-- The pure update step of the fuzzy loop on an already-scored candidate,
used to relate the loop to `firstArgmax`. -/
def fuzzyUpd (st : Option String × ℚ) (p : String × ℚ) : Option String × ℚ :=
  if st.2 < p.2 then (some p.1, p.2) else st

/-- Claim C3's wording of the overall expected disagreement: the average of
the per-variable expected disagreements across the variables with at least
two observed values (only those enter the denominator). -/
def claimExpectedAvg {V : Type} [DecidableEq V]
    (cats : List (String × List V)) (obs : List (List (String × V))) : ℚ :=
  let contributing := cats.filter (fun c => 2 ≤ (valsFor obs c.1).length)
  ((contributing.map (fun c => varExpected (valsFor obs c.1))).sum) /
    (contributing.length : ℚ)

/-! ## Concrete fixtures used by the claim theorems -/

/-- A categorical variable with options `positive, negative`. -/
def sentimentVar : Variable :=
  { name := "sentiment", type := "select",
    options := some (.ostr "positive,negative") }

/-- A free-text variable named `topic`. -/
def topicVar : Variable := { name := "topic", type := "文本" }

/-- A reply whose fenced block is not valid JSON and which also carries a
`key=value` line: stage 2 captures the block, `json.loads` raises inside the
stage-2/3 handler, and the escape path at lines 984-992 returns the raw
line-parsed mapping. -/
def escapeResp : String := "```json\n\x7boops\x7d\n```\nsentiment = garbage"

/-- Scenario D reply: JSON only inside a fenced block. -/
def scenarioDResp : String :=
  "Here is the result:\n```json\n\x7b\"topic\":\"tech\"\x7d\n```\nThanks"

/-- A categorical variable whose options string parses to the empty list. -/
def gradeVar : Variable :=
  { name := "grade", type := "分类变量", options := some (.ostr " , ,") }

/-! ## Helper lemmas -/

/-- A validation pass over variables none of which occurs in the candidate
mapping leaves the accumulator unchanged. -/
theorem validateAGo_all_absent (om : List (String × List String)) (j : JValue) :
    ∀ (vars : List Variable) (acc : List (String × JValue)),
      (∀ var ∈ vars, pyContains j var.name = .ok false) →
      validateAGo om j vars acc = .ok acc := by
  intro vars
  induction vars with
  | nil => intro acc _; rfl
  | cons v rest ih =>
    intro acc h
    have hv := h v (List.mem_cons_self v rest)
    simp only [validateAGo, hv]
    exact ih acc (fun w hw => h w (List.mem_cons_of_mem _ hw))

/-! ## Claim C1 -/

/-- Claim C1 (refuting evidence): on a reply whose fenced block is not
valid JSON but which carries a `key=value` line, `auto_code_content`
returns the raw line-parsed mapping through the handler at lines 984-992
without validating it, so the categorical variable `sentiment` receives
the value `garbage`, which is not among its declared options — even though
the variable was registered with the non-empty option list
`[positive, negative]`. -/
theorem escape_path_returns_unvalidated_value :
    auto_code_content_parse [sentimentVar] escapeResp =
      some [("sentiment", JValue.jstr "garbage")] ∧
    (buildVarsContext [sentimentVar]).map Prod.snd =
      some [("sentiment", ["positive", "negative"])] ∧
    "garbage" ∉ (["positive", "negative"] : List String) :=
  ⟨rfl, rfl, by decide⟩

/-! ## Claim C2 -/

/-- Claim C2 (counterexample): extraction stage 1 does not reject
non-object JSON.  The bare JSON scalar reply `"positive"` parses in stage 1,
and the coding operation returns the empty mapping `some []` — not the
`ExtractionFailed` outcome (`none`) the claim requires. -/
theorem bare_scalar_reply_returns_empty_mapping :
    jsonParse "\"positive\"" = some (JValue.jstr "positive") ∧
    auto_code_content_parse [sentimentVar] "\"positive\"" = some [] ∧
    auto_code_content_parse [sentimentVar] "\"positive\"" ≠ none := by
  have h : auto_code_content_parse [sentimentVar] "\"positive\"" = some [] := rfl
  exact ⟨rfl, h, by rw [h]; simp⟩

/-- Claim C2 (amended): stage 1 parses the whole reply as JSON and accepts
any JSON value.  When the reply is a bare JSON string in which no variable
name occurs as a substring (Python `in` on a string is substring search),
the validation loop finds no variable and the operation returns the empty
mapping rather than failing. -/
theorem stage1_scalar_gives_empty_mapping (vars : List Variable)
    (resp s : String) (ctx : String × List (String × List String))
    (hctx : buildVarsContext vars = some ctx)
    (hparse : jsonParse resp = some (JValue.jstr s))
    (habsent : ∀ var ∈ vars, pySubstr var.name s = false) :
    auto_code_content_parse vars resp = some [] := by
  have hval : validateA vars ctx.2 (.jstr s) = .ok [] :=
    validateAGo_all_absent _ _ vars []
      (fun var hv => by simp only [pyContains, habsent var hv])
  simp only [auto_code_content_parse, codingParse, hctx, hparse, hval,
    Except.toOption]

/-- Witness for the amended claim C2 at the Scenario A input. -/
theorem stage1_scalar_gives_empty_mapping_witness :
    auto_code_content_parse [sentimentVar] "\"positive\"" = some [] :=
  stage1_scalar_gives_empty_mapping [sentimentVar] "\"positive\"" "positive"
    _ rfl rfl (by decide)

/-! ## Lemmas about the fallback stages on brace-free replies -/

/-- An element exposed by `dropWhile` belongs to the original list. -/
theorem mem_of_dropWhile_eq_cons {l body : List Char} {d : Char}
    (h : l.dropWhile pyWs = d :: body) : d ∈ l :=
  (List.dropWhile_sublist pyWs).subset (h ▸ List.mem_cons_self d body)

/-- The fenced-block pattern cannot match at a position from which no
opening brace is reachable. -/
theorem fencedFrom_eq_none (cs : List Char) (h : lbrace ∉ cs) :
    fencedFrom cs = none := by
  match cs with
  | [] => rfl
  | [a] => rfl
  | [a, b] => rfl
  | a :: b :: c :: rest =>
    simp only [fencedFrom]
    split
    · set rest2 := if rest.take 4 = ['j', 's', 'o', 'n'] then rest.drop 4 else rest with hrest2
      have hsub : rest2 ⊆ rest := by
        rw [hrest2]
        split
        · exact List.drop_subset _ _
        · exact fun x hx => hx
      cases hm : rest2.dropWhile pyWs with
      | nil => rfl
      | cons d body =>
        have hd : d ∈ rest2 := mem_of_dropWhile_eq_cons hm
        have hdcs : d ∈ a :: b :: c :: rest :=
          List.mem_cons_of_mem _ (List.mem_cons_of_mem _ (List.mem_cons_of_mem _ (hsub hd)))
        have hne : ¬ d = lbrace := fun he => h (he ▸ hdcs)
        simp [hm, hne]
    · rfl

/-- Stage 2 finds nothing in a brace-free reply. -/
theorem fencedSearchList_eq_none (cs : List Char) (h : lbrace ∉ cs) :
    fencedSearchList cs = none := by
  induction cs with
  | nil => rfl
  | cons c rest ih =>
    simp only [fencedSearchList, fencedFrom_eq_none (c :: rest) h]
    exact ih (fun hm => h (List.mem_cons_of_mem _ hm))

/-- Predicate-free elements make `findIdx?` fail. -/
theorem findIdx?_eq_none_of_all {α : Type} (p : α → Bool) (l : List α)
    (h : ∀ x ∈ l, ¬ p x) : List.findIdx? p l = none := by
  induction l with
  | nil => rfl
  | cons x xs ih =>
    simp [List.findIdx?_cons, h x (List.mem_cons_self x xs),
      ih (fun y hy => h y (List.mem_cons_of_mem _ hy))]

/-- Stage 3 finds nothing in a brace-free reply. -/
theorem braceSub_eq_none (s : String) (h : lbrace ∉ s.data) :
    braceSub s = none := by
  have hall : ∀ x ∈ s.data, ¬ (fun x => x = lbrace : Char → Bool) x = true := by
    intro x hx hpx
    simp only [decide_eq_true_eq] at hpx
    exact h (hpx ▸ hx)
  simp only [braceSub, findIdx?_eq_none_of_all _ s.data hall]

/-! ## Claim C5 -/

/-- Claim C5: with `max_retries = 3`, an always-failing operation is
invoked exactly three times, the sleeps after the non-final failed attempts
last `initial_backoff * backoff_factor ^ (attempt - 1)` seconds, and the
last failure is re-raised; an operation that fails once and succeeds on the
second attempt is invoked exactly twice, sleeps once for `initial_backoff`
seconds, and its success is returned. -/
theorem retry_invocation_behavior {E A : Type} (g : Nat → E)
    (f : Nat → Except E A) (i fac : ℚ) (e : E) (a : A)
    (hf0 : f 0 = Except.error e) (hf1 : f 1 = Except.ok a) :
    @retry_with_backoff E A 3 i fac (fun n => Except.error (g n)) =
      (some (Except.error (g 2)), 3, [i * fac ^ 0, i * fac ^ 1]) ∧
    retry_with_backoff 3 i fac f = (some (Except.ok a), 2, [i * fac ^ 0]) := by
  constructor
  · rfl
  · simp [retry_with_backoff, retryGo, hf0, hf1]

/-- Witness for claim C5 at a concrete failing and a concrete
fail-then-succeed operation. -/
theorem retry_invocation_behavior_witness :
    @retry_with_backoff ℕ ℕ 3 5 2 (fun n => Except.error ((fun k => k) n)) =
      (some (Except.error 2), 3, [(5 : ℚ) * 2 ^ 0, 5 * 2 ^ 1]) ∧
    retry_with_backoff 3 5 2
      (fun n => if n = 0 then Except.error 7 else Except.ok 9) =
      (some (Except.ok (9 : Nat)), 2, [(5 : ℚ) * 2 ^ 0]) :=
  retry_invocation_behavior (fun k => k)
    (fun n => if n = 0 then Except.error 7 else Except.ok 9) 5 2 7 9 rfl rfl

/-! ## Claim C9 -/

/-- Claim C9: the fallback stages fire in order with first success winning.
A reply that parses as bare JSON is settled by stage 1 alone; a reply
rejected by stage 1 whose fenced block parses yields exactly the validated
parse of that block (Scenario D recovers `topic = tech`); a reply rejected
by stage 1 with no braces anywhere is handled by the line-oriented stage,
which splits each line containing `=` at its first `=` into stripped key
and value and ignores the rest. -/
theorem extractor_fallback_order (vars : List Variable) (resp : String)
    (ctx : String × List (String × List String)) (b : String) (j : JValue)
    (r : List (String × JValue)) (hctx : buildVarsContext vars = some ctx) :
    (∀ j0, jsonParse resp = some j0 →
      auto_code_content_parse vars resp = (validateA vars ctx.2 j0).toOption) ∧
    (jsonParse resp = none → fencedSearch resp = some b →
      jsonParse b = some j → validateB vars ctx.2 j = .ok r →
      auto_code_content_parse vars resp = some r) ∧
    (jsonParse resp = none → lbrace ∉ resp.data →
      auto_code_content_parse vars resp =
        match validateA vars ctx.2 (lineParseObj resp) with
        | .ok r2 => some r2
        | .error _ => some (rawLineResult resp)) ∧
    auto_code_content_parse [topicVar] scenarioDResp =
      some [("topic", JValue.jstr "tech")] ∧
    lineParse "a = 1\nnope\nb=2" = [("a", "1"), ("b", "2")] := by
  refine ⟨?_, ?_, ?_, rfl, rfl⟩
  · intro j0 hparse
    simp only [auto_code_content_parse, codingParse, hctx, hparse]
  · intro hparse hfen hpb hval
    simp only [auto_code_content_parse, codingParse, hctx, hparse, hfen, hpb, hval]
  · intro hparse hnob
    have hfen : fencedSearch resp = none := fencedSearchList_eq_none _ hnob
    have hbs : braceSub resp = none := braceSub_eq_none _ hnob
    simp only [auto_code_content_parse, codingParse, hctx, hparse, hfen, hbs]

/-- Witness for claim C9: stage 1 settles a bare JSON object, stage 2
recovers a fenced block, and the line stage handles a brace-free
`key=value` reply. -/
theorem extractor_fallback_order_witness :
    auto_code_content_parse [sentimentVar] "\x7b\"sentiment\":\"positive\"\x7d" =
      (validateA [sentimentVar] [("sentiment", ["positive", "negative"])]
        (JValue.jobj [("sentiment", JValue.jstr "positive")])).toOption ∧
    auto_code_content_parse [sentimentVar]
      "```json\n\x7b\"sentiment\":\"positive\"\x7d\n```" =
      some [("sentiment", JValue.jstr "positive")] ∧
    auto_code_content_parse [sentimentVar] "sentiment=positive" =
      match validateA [sentimentVar] [("sentiment", ["positive", "negative"])]
          (lineParseObj "sentiment=positive") with
      | .ok r2 => some r2
      | .error _ => some (rawLineResult "sentiment=positive") :=
  ⟨(extractor_fallback_order [sentimentVar] _ _ "x" JValue.jnull [] rfl).1 _ rfl,
   (extractor_fallback_order [sentimentVar] _ _ _ _ _ rfl).2.1 rfl rfl rfl rfl,
   (extractor_fallback_order [sentimentVar] _ _ "x" JValue.jnull [] rfl).2.2.1
     rfl (by decide)⟩

/-! ## Dictionary lemmas -/

/-- Lookup of a key just inserted. -/
theorem dictLookup_insert_self {α : Type} :
    ∀ (m : List (String × α)) (k : String) (v : α),
      dictLookup (dictInsert m k v) k = some v := by
  intro m k v
  induction m with
  | nil => simp [dictInsert, dictLookup]
  | cons p rest ih =>
    by_cases hp : p.1 = k
    · simp [dictInsert, hp, dictLookup]
    · simp [dictInsert, hp, dictLookup, ih]

/-- Lookup of a different key sees through an insert. -/
theorem dictLookup_insert_ne {α : Type} :
    ∀ (m : List (String × α)) (k : String) (v : α) (k' : String), k' ≠ k →
      dictLookup (dictInsert m k v) k' = dictLookup m k' := by
  intro m k v k' hne
  induction m with
  | nil =>
    have h1 : ¬ k = k' := fun h => hne h.symm
    simp [dictInsert, dictLookup, h1]
  | cons p rest ih =>
    by_cases hp : p.1 = k
    · have h1 : ¬ k = k' := fun h => hne h.symm
      have h2 : ¬ p.1 = k' := by rw [hp]; exact h1
      simp [dictInsert, hp, dictLookup, h1, h2]
    · by_cases hk' : p.1 = k'
      · simp [dictInsert, hp, dictLookup, hk', hne]
      · simp [dictInsert, hp, dictLookup, hk', ih]

/-! ## Lemmas about the validator -/

/-- Empty option list: the fuzzy loop never runs, `best_match` stays
`None`, and the guarded fallback `valid_options[0] if valid_options else
""` produces the empty string for every candidate value. -/
theorem catValue_nil (value : JValue) : catValue value [] = .ok (JValue.jstr "") := by
  cases value <;> rfl

/-- A validation pass never touches keys that name none of its variables. -/
theorem validateAGo_frame (om : List (String × List String)) (j : JValue)
    (n : String) :
    ∀ (vars : List Variable) (acc : List (String × JValue))
      (m : List (String × JValue)),
      validateAGo om j vars acc = .ok m → (∀ v ∈ vars, v.name ≠ n) →
      dictLookup m n = dictLookup acc n := by
  intro vars
  induction vars with
  | nil =>
    intro acc m hok _
    cases hok
    rfl
  | cons v rest ih =>
    intro acc m hok hne
    have hvn : v.name ≠ n := hne v (List.mem_cons_self v rest)
    have hrest : ∀ w ∈ rest, w.name ≠ n :=
      fun w hw => hne w (List.mem_cons_of_mem _ hw)
    cases hc : pyContains j v.name with
    | error e => simp [validateAGo, hc] at hok
    | ok bfound =>
      cases bfound with
      | false =>
        simp only [validateAGo, hc] at hok
        exact ih acc m hok hrest
      | true =>
        cases hg : pyGet j v.name with
        | error e => simp [validateAGo, hc, hg] at hok
        | ok value =>
          simp only [validateAGo, hc, hg] at hok
          by_cases hcat : (isCatType v.type && (dictLookup om v.name).isSome) = true
          · rw [if_pos hcat] at hok
            cases hcv : catValue value ((dictLookup om v.name).getD []) with
            | error e => simp [hcv] at hok
            | ok v2 =>
              rw [hcv] at hok
              rw [ih (dictInsert acc v.name v2) m hok hrest]
              exact dictLookup_insert_ne acc v.name v2 n (Ne.symm hvn)
          · rw [if_neg hcat] at hok
            rw [ih (dictInsert acc v.name value) m hok hrest]
            exact dictLookup_insert_ne acc v.name value n (Ne.symm hvn)

/-- A categorical variable registered with the empty option list whose name
occurs in the candidate mapping ends up bound to the empty string in the
validated result. -/
theorem validateAGo_empty_default (om : List (String × List String))
    (j : JValue) (var : Variable) (hcat : isCatType var.type = true)
    (hopts : dictLookup om var.name = some [])
    (hin : pyContains j var.name = .ok true) :
    ∀ (vars : List Variable) (acc : List (String × JValue))
      (m : List (String × JValue)),
      validateAGo om j vars acc = .ok m → var ∈ vars →
      (vars.map Variable.name).Nodup →
      dictLookup m var.name = some (JValue.jstr "") := by
  intro vars
  induction vars with
  | nil => intro acc m _ hmem; exact absurd hmem (List.not_mem_nil var)
  | cons v rest ih =>
    intro acc m hok hmem hnd
    have hnd1 : v.name ∉ rest.map Variable.name := (List.nodup_cons.mp hnd).1
    have hnd2 : (rest.map Variable.name).Nodup := (List.nodup_cons.mp hnd).2
    rcases List.mem_cons.mp hmem with hv | hv
    · subst hv
      simp only [validateAGo, hin] at hok
      cases hg : pyGet j var.name with
      | error e => rw [hg] at hok; simp at hok
      | ok value =>
        simp only [hg, hcat, hopts, Option.isSome_some, Bool.and_self,
          if_true, Option.getD_some, catValue_nil] at hok
        have hrest : ∀ w ∈ rest, w.name ≠ var.name := by
          intro w hw he
          exact hnd1 (he ▸ List.mem_map_of_mem Variable.name hw)
        rw [validateAGo_frame om j var.name rest _ m hok hrest]
        exact dictLookup_insert_self acc var.name (JValue.jstr "")
    · have hvn : v.name ≠ var.name := by
        intro he
        exact hnd1 (he ▸ List.mem_map_of_mem Variable.name hv)
      cases hc : pyContains j v.name with
      | error e => simp [validateAGo, hc] at hok
      | ok bfound =>
        cases bfound with
        | false =>
          simp only [validateAGo, hc] at hok
          exact ih acc m hok hv hnd2
        | true =>
          cases hg : pyGet j v.name with
          | error e => simp [validateAGo, hc, hg] at hok
          | ok value =>
            simp only [validateAGo, hc, hg] at hok
            by_cases hcat2 : (isCatType v.type && (dictLookup om v.name).isSome) = true
            · rw [if_pos hcat2] at hok
              cases hcv : catValue value ((dictLookup om v.name).getD []) with
              | error e => simp [hcv] at hok
              | ok v2 =>
                rw [hcv] at hok
                exact ih _ m hok hv hnd2
            · rw [if_neg hcat2] at hok
              exact ih _ m hok hv hnd2

/-! ## Claim C10 -/

/-- Claim C10: a categorical variable whose string options field parses to
an empty list is still registered in the options map (with the empty
list), and on the direct-parse path any value the model supplies for it is
replaced by the empty string — the first-option fallback is guarded by
`valid_options[0] if valid_options else ""`, so no out-of-range access
occurs, but the resulting value belongs to no declared option. -/
theorem empty_options_registered_and_defaulted (var : Variable) (s : String)
    (vars : List Variable) (resp : String) (j : JValue)
    (ctx : String × List (String × List String)) (m : List (String × JValue))
    (hcat : isCatType var.type = true) (hops : var.options = some (.ostr s))
    (hempty : splitOpts s = []) :
    (buildVarsContext [var]).map Prod.snd = some [(var.name, [])] ∧
    (buildVarsContext vars = some ctx → dictLookup ctx.2 var.name = some [] →
      var ∈ vars → (vars.map Variable.name).Nodup →
      jsonParse resp = some j → pyContains j var.name = .ok true →
      validateA vars ctx.2 j = .ok m →
      auto_code_content_parse vars resp = some m ∧
      dictLookup m var.name = some (JValue.jstr "")) := by
  constructor
  · by_cases hG : var.guide = "" <;>
      simp [buildVarsContext, List.foldlM, varContextStep, hcat, hops, hempty,
        hG, dictInsert]
  · intro hctx hlk hmem hnd hparse hin hok
    constructor
    · simp only [auto_code_content_parse, codingParse, hctx, hparse, hok,
        Except.toOption]
    · exact validateAGo_empty_default ctx.2 j var hcat hlk hin vars [] m hok
        hmem hnd

/-- Witness for claim C10 on a one-variable schema whose options string is
only commas and spaces. -/
theorem empty_options_registered_and_defaulted_witness :
    (buildVarsContext [gradeVar]).map Prod.snd = some [("grade", [])] ∧
    (auto_code_content_parse [gradeVar] "\x7b\"grade\": \"A\"\x7d" =
      some [("grade", JValue.jstr "")] ∧
    dictLookup [("grade", JValue.jstr "")] "grade" = some (JValue.jstr "")) :=
  ⟨(empty_options_registered_and_defaulted gradeVar " , ," [gradeVar]
      "\x7b\"grade\": \"A\"\x7d" (JValue.jobj [("grade", JValue.jstr "A")])
      ("grade (分类变量)\n\n", [("grade", [])]) [("grade", JValue.jstr "")]
      rfl rfl rfl).1,
   (empty_options_registered_and_defaulted gradeVar " , ," [gradeVar]
      "\x7b\"grade\": \"A\"\x7d" (JValue.jobj [("grade", JValue.jstr "A")])
      ("grade (分类变量)\n\n", [("grade", [])]) [("grade", JValue.jstr "")]
      rfl rfl rfl).2
     rfl rfl (List.mem_singleton.mpr rfl) (by simp) rfl rfl rfl⟩

/-! ## Claim C7 -/

/-- Claim C7: the alpha coefficient returns 0 when fewer than two
observations are supplied; when disagreement pairs exist it returns exactly
1 when the expected disagreement is exactly 0, and
`1 - observed_disagreement / expected_disagreement` otherwise. -/
theorem alpha_boundary_conventions {V : Type} [DecidableEq V]
    (obs : List (List (String × V))) (cats : List (String × List V)) :
    (obs.length < 2 → calculate_krippendorff_alpha obs cats = 0) ∧
    (¬ obs.length < 2 → krippTotalPairs cats obs ≠ 0 →
      krippExpected cats obs = 0 →
      calculate_krippendorff_alpha obs cats = 1) ∧
    (¬ obs.length < 2 → krippTotalPairs cats obs ≠ 0 →
      krippExpected cats obs ≠ 0 →
      calculate_krippendorff_alpha obs cats =
        1 - ((krippDisagreePairs cats obs : ℚ) / (krippTotalPairs cats obs : ℚ)) /
          krippExpected cats obs) := by
  refine ⟨?_, ?_, ?_⟩
  · intro h
    simp [calculate_krippendorff_alpha, h]
  · intro h1 h2 h3
    simp [calculate_krippendorff_alpha, h1, h2, h3]
  · intro h1 h2 h3
    simp [calculate_krippendorff_alpha, h1, h2, h3]

/-- Witness for claim C7: Scenario C (five coders, identical value) yields
alpha 1 through the zero-expected-disagreement convention; the empty
observation list yields 0; a two-coder disagreement case follows the
`1 - od / ed` formula. -/
theorem alpha_boundary_conventions_witness :
    calculate_krippendorff_alpha ([] : List (List (String × String)))
      [("a", ["x", "y"])] = 0 ∧
    calculate_krippendorff_alpha
      [[("a", "x")], [("a", "x")], [("a", "x")], [("a", "x")], [("a", "x")]]
      [("a", ["x", "y"])] = 1 ∧
    calculate_krippendorff_alpha [[("a", "x")], [("a", "y")]]
      [("a", ["x", "y"])] =
      1 - ((krippDisagreePairs [("a", ["x", "y"])]
              ([[("a", "x")], [("a", "y")]] : List (List (String × String))) : ℚ) /
            (krippTotalPairs [("a", ["x", "y"])]
              ([[("a", "x")], [("a", "y")]] : List (List (String × String))) : ℚ)) /
        krippExpected [("a", ["x", "y"])]
          ([[("a", "x")], [("a", "y")]] : List (List (String × String))) := by
  refine ⟨(alpha_boundary_conventions _ _).1 (by decide), ?_, ?_⟩
  · apply (alpha_boundary_conventions _ _).2.1 (by decide) (by decide)
    have hv : valsFor
        ([[("a", "x")], [("a", "x")], [("a", "x")], [("a", "x")], [("a", "x")]] :
          List (List (String × String))) "a" = ["x", "x", "x", "x", "x"] := rfl
    simp only [krippExpected, List.map, hv, varExpected]
    simp +decide only [List.dedup, List.count_cons, List.count_nil]
    norm_num
  · apply (alpha_boundary_conventions _ _).2.2 (by decide) (by decide)
    have hv : valsFor ([[("a", "x")], [("a", "y")]] :
        List (List (String × String))) "a" = ["x", "y"] := rfl
    simp only [krippExpected, List.map, hv, varExpected]
    simp +decide only [List.dedup, List.count_cons, List.count_nil]
    norm_num

/-! ## Claim C3 -/

/-- Claim C3 (counterexample): the expected disagreement is averaged over
the total number of variables in the categories mapping, not only those
with at least two observed values.  With variables `a` (two observed
values) and `b` (none), the code computes `(1/2) / 2 = 1/4` and alpha
`-3`, while the claim's convention (average over contributing variables
only) gives `1/2` and alpha `-1`. -/
theorem alpha_denominator_counterexample :
    krippExpected [("a", ["x", "y"]), ("b", ["x", "y"])]
      ([[("a", "x")], [("a", "y")]] : List (List (String × String))) = 1 / 4 ∧
    claimExpectedAvg [("a", ["x", "y"]), ("b", ["x", "y"])]
      ([[("a", "x")], [("a", "y")]] : List (List (String × String))) = 1 / 2 ∧
    krippExpected [("a", ["x", "y"]), ("b", ["x", "y"])]
        ([[("a", "x")], [("a", "y")]] : List (List (String × String))) ≠
      claimExpectedAvg [("a", ["x", "y"]), ("b", ["x", "y"])]
        ([[("a", "x")], [("a", "y")]] : List (List (String × String))) ∧
    calculate_krippendorff_alpha
      ([[("a", "x")], [("a", "y")]] : List (List (String × String)))
      [("a", ["x", "y"]), ("b", ["x", "y"])] = -3 ∧
    (1 : ℚ) - 1 / (1 / 2 : ℚ) = -1 ∧ (-3 : ℚ) ≠ -1 := by
  have hva : valsFor ([[("a", "x")], [("a", "y")]] :
      List (List (String × String))) "a" = ["x", "y"] := rfl
  have hvb : valsFor ([[("a", "x")], [("a", "y")]] :
      List (List (String × String))) "b" = [] := rfl
  have h1 : krippExpected [("a", ["x", "y"]), ("b", ["x", "y"])]
      ([[("a", "x")], [("a", "y")]] : List (List (String × String))) = 1 / 4 := by
    simp only [krippExpected, List.map, hva, hvb, varExpected]
    simp +decide only [List.dedup, List.count_cons, List.count_nil]
    norm_num
  have h2 : claimExpectedAvg [("a", ["x", "y"]), ("b", ["x", "y"])]
      ([[("a", "x")], [("a", "y")]] : List (List (String × String))) = 1 / 2 := by
    simp only [claimExpectedAvg]
    simp +decide only [List.filter, hva, hvb, List.map, varExpected,
      List.dedup, List.count_cons, List.count_nil]
    norm_num
  have h3 : krippTotalPairs [("a", ["x", "y"]), ("b", ["x", "y"])]
      ([[("a", "x")], [("a", "y")]] : List (List (String × String))) = 1 := rfl
  have h4 : krippDisagreePairs [("a", ["x", "y"]), ("b", ["x", "y"])]
      ([[("a", "x")], [("a", "y")]] : List (List (String × String))) = 1 := rfl
  refine ⟨h1, h2, by rw [h1, h2]; norm_num, ?_, by norm_num, by norm_num⟩
  simp only [calculate_krippendorff_alpha, h1, h3, h4]
  norm_num

/-- Claim C3 (amended): the per-variable expected disagreement is the sum
of `P(v1) * P(v2)` over ordered pairs of distinct observed values, computed
only for variables with a non-empty declared category list and at least two
observed values; the overall expected disagreement divides the sum of these
contributions by the total number of variables in the categories mapping,
so variables contributing nothing still enlarge the denominator. -/
theorem krippExpected_filtered_sum_over_all {V : Type} [DecidableEq V]
    (cats : List (String × List V)) (obs : List (List (String × V))) :
    krippExpected cats obs =
      ((cats.filter (fun c => ¬ c.2 = [] ∧ 2 ≤ (valsFor obs c.1).length)).map
        (fun c => varExpected (valsFor obs c.1))).sum / (cats.length : ℚ) := by
  unfold krippExpected
  congr 1
  induction cats with
  | nil => rfl
  | cons c rest ih =>
    by_cases hc1 : c.2 = []
    · have : ¬ (¬ c.2 = [] ∧ 2 ≤ (valsFor obs c.1).length) := fun h => h.1 hc1
      simp only [List.map_cons, List.sum_cons, List.filter_cons, this,
        decide_eq_true_eq, if_neg, hc1, if_pos, ih]
      simp [hc1]
    · by_cases hc2 : (valsFor obs c.1).length < 2
      · have hn2 : ¬ 2 ≤ (valsFor obs c.1).length := not_le.mpr hc2
        have : ¬ (¬ c.2 = [] ∧ 2 ≤ (valsFor obs c.1).length) := fun h => hn2 h.2
        simp only [List.map_cons, List.sum_cons, List.filter_cons]
        rw [if_neg hc1, if_pos hc2]
        simp only [decide_eq_true_eq]
        rw [if_neg this, ih]
        ring
      · have h2 : 2 ≤ (valsFor obs c.1).length := not_lt.mp hc2
        have : (¬ c.2 = [] ∧ 2 ≤ (valsFor obs c.1).length) := ⟨hc1, h2⟩
        simp only [List.map_cons, List.sum_cons, List.filter_cons]
        rw [if_neg hc1, if_neg hc2]
        simp only [decide_eq_true_eq]
        rw [if_pos this]
        simp only [List.map_cons, List.sum_cons, ih]

/-! ## Claim C6 -/

/-- Throughout the comparison fold, agreements never outnumber
comparisons. -/
theorem pairFold_snd_le_fst {V : Type} [DecidableEq V]
    (oj : List (String × V)) :
    ∀ (oi : List (String × V)) (st : Nat × Nat), st.2 ≤ st.1 →
      (oi.foldl (pairStep oj) st).2 ≤ (oi.foldl (pairStep oj) st).1 := by
  intro oi
  induction oi with
  | nil => intro st h; exact h
  | cons p rest ih =>
    intro st h
    simp only [List.foldl_cons]
    apply ih
    cases hl : dictLookup oj p.1 with
    | none => simpa [pairStep, hl] using h
    | some w =>
      simp only [pairStep, hl]
      split <;> omega

/-- When every present variable carries the same value in both
observations, every comparison is an agreement. -/
theorem pairFold_snd_eq_fst {V : Type} [DecidableEq V]
    (oj : List (String × V)) :
    ∀ (oi : List (String × V)) (st : Nat × Nat), st.2 = st.1 →
      (∀ kv ∈ oi, dictLookup oj kv.1 = none ∨ dictLookup oj kv.1 = some kv.2) →
      (oi.foldl (pairStep oj) st).2 = (oi.foldl (pairStep oj) st).1 := by
  intro oi
  induction oi with
  | nil => intro st h _; exact h
  | cons p rest ih =>
    intro st h hall
    simp only [List.foldl_cons]
    apply ih
    · rcases hall p (List.mem_cons_self p rest) with hl | hl
      · simpa [pairStep, hl] using h
      · simp [pairStep, hl, h]
    · exact fun kv hkv => hall kv (List.mem_cons_of_mem _ hkv)

/-- Short observation lists have no pairs. -/
theorem allPairs_eq_nil_of_short {α : Type} (l : List α) (h : l.length < 2) :
    allPairs l = [] := by
  cases l with
  | nil => rfl
  | cons x rest =>
    cases rest with
    | nil => rfl
    | cons y r2 => simp at h; omega

/-- Agreements never exceed comparisons overall. -/
theorem totalAgreements_le_totalComparisons {V : Type} [DecidableEq V]
    (obs : List (List (String × V))) :
    totalAgreements obs ≤ totalComparisons obs := by
  unfold totalAgreements totalComparisons
  apply List.sum_le_sum
  intro pq _
  exact pairFold_snd_le_fst pq.2 pq.1 (0, 0) (Nat.le_refl 0)

/-- Claim C6: percentage agreement counts one comparison per unordered
observation pair and per variable present in both, an agreement on exact
equality, and returns agreements over comparisons — a value in `[0, 1]`,
equal to 1 when all shared values agree (and comparisons exist), and 0
when there are no valid comparisons or fewer than two observations. -/
theorem percentage_agreement_props {V : Type} [DecidableEq V]
    (obs : List (List (String × V))) :
    0 ≤ calculate_percentage_agreement obs ∧
    calculate_percentage_agreement obs ≤ 1 ∧
    (obs.length < 2 ∨ totalComparisons obs = 0 →
      calculate_percentage_agreement obs = 0) ∧
    (totalComparisons obs ≠ 0 →
      (∀ pq ∈ allPairs obs, ∀ kv ∈ pq.1,
        dictLookup pq.2 kv.1 = none ∨ dictLookup pq.2 kv.1 = some kv.2) →
      calculate_percentage_agreement obs = 1) := by
  refine ⟨?_, ?_, ?_, ?_⟩
  · unfold calculate_percentage_agreement
    split
    · exact le_refl 0
    · split
      · exact le_refl 0
      · positivity
  · unfold calculate_percentage_agreement
    split
    · exact zero_le_one
    · split
      · exact zero_le_one
      · rename_i h1 h2
        rw [div_le_one (by positivity)]
        exact_mod_cast totalAgreements_le_totalComparisons obs
  · intro h
    unfold calculate_percentage_agreement
    rcases h with h | h
    · rw [if_pos h]
    · simp [h]
  · intro hc hall
    have hlen : ¬ obs.length < 2 := by
      intro hlt
      apply hc
      unfold totalComparisons
      rw [allPairs_eq_nil_of_short obs hlt]
      rfl
    have heq : totalAgreements obs = totalComparisons obs := by
      unfold totalAgreements totalComparisons
      congr 1
      apply List.map_congr_left
      intro pq hpq
      exact pairFold_snd_eq_fst pq.2 pq.1 (0, 0) rfl (hall pq hpq)
    unfold calculate_percentage_agreement
    rw [if_neg hlen, if_neg hc, heq]
    exact div_self (by exact_mod_cast hc)

/-- Witness for claim C6: Scenario-B-style data (two coders, two shared
variables, one agreeing) has agreement 1/2, identical coders have
agreement 1, and a single observation yields 0. -/
theorem percentage_agreement_props_witness :
    calculate_percentage_agreement
      [[("a", "x"), ("b", "y")], [("a", "x"), ("b", "z")]] = 1 / 2 ∧
    calculate_percentage_agreement [[("a", "x")], [("a", "x")]] = 1 ∧
    calculate_percentage_agreement [[("a", "x")]] = 0 ∧
    (0 : ℚ) ≤ calculate_percentage_agreement
      [[("a", "x"), ("b", "y")], [("a", "x"), ("b", "z")]] ∧
    calculate_percentage_agreement
      [[("a", "x"), ("b", "y")], [("a", "x"), ("b", "z")]] ≤ 1 := by
  have hc : totalComparisons ([[("a", "x"), ("b", "y")], [("a", "x"), ("b", "z")]] :
      List (List (String × String))) = 2 := rfl
  have ha : totalAgreements ([[("a", "x"), ("b", "y")], [("a", "x"), ("b", "z")]] :
      List (List (String × String))) = 1 := rfl
  refine ⟨?_, ?_, ?_, ?_, ?_⟩
  · simp only [calculate_percentage_agreement, hc, ha]
    norm_num
  · exact (percentage_agreement_props [[("a", "x")], [("a", "x")]]).2.2.2
      (by decide) (by decide)
  · exact (percentage_agreement_props [[("a", "x")]]).2.2.1 (Or.inl (by decide))
  · exact (percentage_agreement_props _).1
  · exact (percentage_agreement_props _).2.1

/-! ## Claim C8 -/

/-- A string of length zero is the empty string. -/
theorem eq_empty_of_length_eq_zero {s : String} (h : s.length = 0) : s = "" := by
  cases s with
  | mk data =>
    cases data with
    | nil => rfl
    | cons c cs => simp [String.length] at h

/-- Without the double-empty crash case, the fuzzy loop is the pure
strict-improvement fold over the eligible scored candidates. -/
theorem fuzzyFold_eq_scored (value : String) :
    ∀ (opts : List String) (st : Option String × ℚ),
      (∀ o ∈ opts, ¬ (value = "" ∧ o = "")) →
      opts.foldlM (fuzzyStep value) st =
        .ok ((fuzzyEligibleScored value opts).foldl fuzzyUpd st) := by
  intro opts
  induction opts with
  | nil => intro st _; rfl
  | cons o rest ih =>
    intro st h
    have hrest : ∀ o2 ∈ rest, ¬ (value = "" ∧ o2 = "") :=
      fun o2 h2 => h o2 (List.mem_cons_of_mem _ h2)
    simp only [List.foldlM_cons, fuzzyEligibleScored, List.filterMap_cons]
    by_cases he : eligibleOpt value o = true
    · have hmax : ¬ max o.length value.length = 0 := by
        intro h0
        rcases Nat.max_eq_zero_iff.mp h0 with ⟨h1, h2⟩
        exact h o (List.mem_cons_self o rest)
          ⟨eq_empty_of_length_eq_zero h2, eq_empty_of_length_eq_zero h1⟩
      simp only [fuzzyStep, he, if_true, if_neg hmax]
      rw [show ((if st.2 < simScore value o then Except.ok (some o, simScore value o)
          else Except.ok st) : Except Unit (Option String × ℚ)) =
          Except.ok (if st.2 < simScore value o then (some o, simScore value o)
            else st) from by split <;> rfl]
      simp only [Bind.bind, Except.bind]
      rw [ih _ hrest]
      rfl
    · simp only [Bool.not_eq_true] at he
      simp only [fuzzyStep, he, Bool.false_eq_true, if_false]
      simp only [Bind.bind, Except.bind]
      rw [ih _ hrest]
      simp only [fuzzyEligibleScored]

/-- The strict-improvement fold computes the first maximum: it replaces the
running state exactly when the first maximum of the remaining candidates
strictly improves on it. -/
theorem foldl_fuzzyUpd_firstArgmax :
    ∀ (l : List (String × ℚ)) (m : Option String) (b : ℚ),
      l.foldl fuzzyUpd (m, b) =
        match firstArgmax l with
        | some p => if b < p.2 then (some p.1, p.2) else (m, b)
        | none => (m, b) := by
  intro l
  induction l with
  | nil => intro m b; rfl
  | cons p rest ih =>
    intro m b
    simp only [List.foldl_cons, firstArgmax]
    cases hfa : firstArgmax rest with
    | none =>
      by_cases hb : b < p.2 <;>
        simp [fuzzyUpd, hb, ih, hfa]
    | some q =>
      by_cases hb : b < p.2
      · by_cases hq : q.2 ≤ p.2
        · have hnlt : ¬ p.2 < q.2 := not_lt.mpr hq
          simp [fuzzyUpd, hb, ih, hfa, hq, hnlt]
        · have hlt : p.2 < q.2 := not_le.mp hq
          have hbq : b < q.2 := lt_trans hb hlt
          simp [fuzzyUpd, hb, ih, hfa, hq, hlt, hbq]
      · by_cases hq : q.2 ≤ p.2
        · have hnbq : ¬ b < q.2 := fun hlt => hb (lt_of_lt_of_le hlt hq)
          simp [fuzzyUpd, hb, ih, hfa, hq, hnbq]
        · simp [fuzzyUpd, hb, ih, hfa, hq]

/-- The first maximum is an element of the list. -/
theorem firstArgmax_mem :
    ∀ (l : List (String × ℚ)) (p : String × ℚ), firstArgmax l = some p → p ∈ l := by
  intro l
  induction l with
  | nil => intro p h; cases h
  | cons q rest ih =>
    intro p h
    simp only [firstArgmax] at h
    cases hfa : firstArgmax rest with
    | none =>
      simp only [hfa] at h
      cases h
      exact List.mem_cons_self _ _
    | some r =>
      simp only [hfa] at h
      by_cases hr : r.2 ≤ q.2
      · rw [if_pos hr] at h
        cases h
        exact List.mem_cons_self _ _
      · rw [if_neg hr] at h
        cases h
        exact List.mem_cons_of_mem _ (ih _ hfa)

/-- An eligible candidate whose option text is empty always scores zero. -/
theorem eligScored_empty_scores_zero (value : String) (opts : List String)
    (p : String × ℚ) (hp : p ∈ fuzzyEligibleScored value opts)
    (he : p.1 = "") : p.2 = 0 := by
  rcases List.mem_filterMap.mp hp with ⟨o, _, hf⟩
  by_cases hel : eligibleOpt value o = true
  · simp only [hel, if_true] at hf
    cases hf
    simp only at he
    subst he
    simp [simScore, pyLower, charSetInterCard]
  · simp [hel] at hf

/-- Claim C8: the categorical fuzzy repair equals the specification's
deterministic function — eligibility by two-way case-insensitive substring
containment, score by character-set intersection over the larger length,
first maximum winning ties, acceptance only above 0.5, first declared
option otherwise — whenever it is invoked, i.e. on a candidate value that
matched no option exactly. -/
theorem fuzzy_repair_matches_spec (value : String) (opts : List String)
    (h : value ∉ opts) :
    fuzzyRepair value opts = .ok (fuzzyRepairSpec value opts) := by
  have hnc : ∀ o ∈ opts, ¬ (value = "" ∧ o = "") := by
    intro o ho hvo
    exact h (hvo.1 ▸ hvo.2 ▸ ho)
  unfold fuzzyRepair fuzzyFold
  rw [fuzzyFold_eq_scored value opts (none, 0) hnc]
  simp only [Except.map]
  rw [foldl_fuzzyUpd_firstArgmax]
  unfold fuzzyRepairSpec fuzzyDecide
  cases hfa : firstArgmax (fuzzyEligibleScored value opts) with
  | none => rfl
  | some p =>
    dsimp only
    by_cases h0 : (0 : ℚ) < p.2
    · rw [if_pos h0]
      dsimp only
      by_cases hh : (1 / 2 : ℚ) < p.2
      · have hne : p.1 ≠ "" := by
          intro he
          have hz := eligScored_empty_scores_zero value opts p
            (firstArgmax_mem _ p hfa) he
          rw [hz] at hh
          norm_num at hh
        simp [hh, hne]
      · rw [if_neg (fun hc => hh (And.right hc)), if_neg hh]
    · rw [if_neg h0]
      dsimp only
      have hnh : ¬ (1 / 2 : ℚ) < p.2 :=
        fun hlt => h0 (lt_trans (by norm_num) hlt)
      rw [if_neg hnh]

/-- Witness for claim C8 at the Scenario A repair input. -/
theorem fuzzy_repair_matches_spec_witness :
    "Positive (strongly)" ∉ ["positive", "neutral", "negative"] ∧
    fuzzyRepair "Positive (strongly)" ["positive", "neutral", "negative"] =
      .ok (fuzzyRepairSpec "Positive (strongly)"
        ["positive", "neutral", "negative"]) :=
  ⟨by decide, fuzzy_repair_matches_spec _ _ (by decide)⟩

/-! ## Claim C4 -/

/-- Claim C4 (counterexample): with a single frame whose vision call fails,
`auto_code_video` does not fail with `ExtractionFailed`; it proceeds to the
text-model call (here replying `{}`) and returns an empty mapping. -/
theorem video_zero_descriptions_proceeds :
    auto_code_video [((0 : Nat), 10)] [sentimentVar] none (fun _ => none)
      (fun _ => some "\x7b\x7d") = some [] ∧
    some ([] : List (String × JValue)) ≠ none :=
  ⟨rfl, by simp⟩

/-- The frame loop collects exactly the labelled descriptions of the
successfully described frames among the first four, in order. -/
theorem frameDescriptions_eq_filterMap {F : Type} (frames : List (F × Nat))
    (vr : F → Option String) :
    frameDescriptions frames vr =
      (frames.take 4).filterMap (fun fr => (vr fr.1).map (frameLabel fr.2)) := by
  unfold frameDescriptions
  generalize frames.take 4 = l
  suffices h : ∀ (l : List (F × Nat)) (acc : List String),
      l.foldl (fun acc fr =>
        match vr fr.1 with
        | some d => acc ++ [frameLabel fr.2 d]
        | none => acc) acc =
      acc ++ l.filterMap (fun fr => (vr fr.1).map (frameLabel fr.2)) by
    simpa using h l []
  intro l
  induction l with
  | nil => intro acc; simp
  | cons fr rest ih =>
    intro acc
    simp only [List.foldl_cons, List.filterMap_cons]
    cases hv : vr fr.1 with
    | none => simp [ih]
    | some d => simp [ih, List.append_assoc]

/-- Claim C4 (amended): an individual frame's failed vision call omits only
that frame from the combined description, and when zero frames are
describable the operation does not fail early — it still issues the
text-model call, with an empty combined description substituted into the
prompt, and returns whatever that reply parses and validates to. -/
theorem video_frame_failure_behavior {F : Type} (frames : List (F × Nat))
    (vars : List Variable) (ctx : String × List (String × List String))
    (tr : String → Option String) (hne : frames ≠ [])
    (hctx : buildVarsContext vars = some ctx) :
    (∀ vr : F → Option String,
      frameDescriptions frames vr =
        (frames.take 4).filterMap (fun fr => (vr fr.1).map (frameLabel fr.2))) ∧
    auto_code_video frames vars none (fun _ => none) tr =
      (match tr (videoPrompt none "" ctx.1) with
        | none => none
        | some resp => videoRespParse vars ctx.2 resp) := by
  constructor
  · intro vr
    exact frameDescriptions_eq_filterMap frames vr
  · have hempty : frameDescriptions frames (fun _ => (none : Option String)) = [] := by
      rw [frameDescriptions_eq_filterMap]
      simp
    have hne2 : frames.isEmpty = false := by
      cases frames with
      | nil => exact absurd rfl hne
      | cons a l => rfl
    unfold auto_code_video
    rw [hne2]
    simp only [Bool.false_eq_true, if_false, hctx, hempty]
    rfl

/-- Witness for the amended claim C4: one failing frame, a text model
replying a bare JSON object. -/
theorem video_frame_failure_behavior_witness :
    (∀ vr : Nat → Option String,
      frameDescriptions [((0 : Nat), 10)] vr =
        ([((0 : Nat), 10)].take 4).filterMap
          (fun fr => (vr fr.1).map (frameLabel fr.2))) ∧
    auto_code_video [((0 : Nat), 10)] [sentimentVar] none (fun _ => none)
      (fun _ => some "\x7b\"sentiment\": \"positive\"\x7d") =
      (match (fun _ => some "\x7b\"sentiment\": \"positive\"\x7d" :
          String → Option String)
          (videoPrompt none "" "sentiment (select) [选项: positive, negative]\n\n") with
        | none => none
        | some resp =>
          videoRespParse [sentimentVar] [("sentiment", ["positive", "negative"])] resp) :=
  video_frame_failure_behavior [((0 : Nat), 10)] [sentimentVar]
    ("sentiment (select) [选项: positive, negative]\n\n",
      [("sentiment", ["positive", "negative"])])
    (fun _ => some "\x7b\"sentiment\": \"positive\"\x7d") (by simp) rfl

end ContentAnalysis
